import Mathlib

/-
Verification development for the blingts4 decorator library.
The TypeScript sources are shallowly embedded: each decorator's wrapped
method body becomes a Lean function over explicit state, with times as
integers (Date.now) and JavaScript call results modelled by `Outcome`.
-/

namespace Bling

/-- Result of calling a JavaScript method: an immediate (synchronous) value,
a synchronous exception, or a promise that eventually settles to a value or
a rejection.  The `pend` payload records how the promise finally settles. -/
inductive Outcome (ε α : Type) where
  | imm (v : α)
  | exn (e : ε)
  | pend (r : Except ε α)

/-- True when the call returned a promise (a pending value). -/
def Outcome.isPending {ε α : Type} : Outcome ε α → Bool
  | .pend _ => true
  | _ => false

/-- Association-list model of a JavaScript Map: lookup. -/
def alookup {κ ν : Type} [DecidableEq κ] : List (κ × ν) → κ → Option ν
  | [], _ => none
  | (k, v) :: rest, key => if k = key then some v else alookup rest key

/-- Association-list model of a JavaScript Map: set (replace or append). -/
def aset {κ ν : Type} [DecidableEq κ] : List (κ × ν) → κ → ν → List (κ × ν)
  | [], key, val => [(key, val)]
  | (k, v) :: rest, key, val =>
    if k = key then (key, val) :: rest else (k, v) :: aset rest key val

/-- Association-list model of a JavaScript Map: delete. -/
def adel {κ ν : Type} [DecidableEq κ] : List (κ × ν) → κ → List (κ × ν)
  | [], _ => []
  | (k, v) :: rest, key =>
    if k = key then adel rest key else (k, v) :: adel rest key

/-- Embedding of the recursive `execute` closure of `Retry`
(src/unnamed/part_004, lines 12-49).  `op a` is the outcome of the a-th
invocation of the original method (sync results and awaited promises both
reduce to an `Except`).  `attempts` is the counter value before the
`attempts++` at the top of `execute`.  Returns the surfaced result, the
number of invocations performed, and the list of waits inserted between
attempts (`backoff` or `backoff * 2 ^ (attempts - 1)`; here the
post-increment counter is `attempts + 1`, so the exponent is `attempts`). -/
def retryGo {ε α : Type} (op : Nat → Except ε α) (maxRetries : Nat)
    (expStrat : Bool) (backoff : Nat) (attempts : Nat) :
    Except ε α × Nat × List Nat :=
  match op (attempts + 1) with
  | .ok v => (.ok v, 1, [])
  | .error e =>
    if maxRetries + 1 ≤ attempts + 1 then (.error e, 1, [])
    else
      let d := if expStrat then backoff * 2 ^ attempts else backoff
      let r := retryGo op maxRetries expStrat backoff (attempts + 1)
      (r.1, r.2.1 + 1, d :: r.2.2)
termination_by maxRetries + 1 - attempts
decreasing_by omega

/-- A top-level call of a `Retry`-wrapped method starts with `attempts = 0`. -/
def retryCall {ε α : Type} (op : Nat → Except ε α) (maxRetries : Nat)
    (expStrat : Bool) (backoff : Nat) : Except ε α × Nat × List Nat :=
  retryGo op maxRetries expStrat backoff 0

/-- The wrapped method always returns `execute()`, a promise
(src/unnamed/part_004, line 48), regardless of the original method's shape. -/
def retryValue {ε α : Type} (op : Nat → Except ε α) (maxRetries : Nat)
    (expStrat : Bool) (backoff : Nat) : Outcome ε α :=
  .pend (retryCall op maxRetries expStrat backoff).1

/-- The three circuit breaker states.  The source's string 'open' is rendered
`opened` because open is a Lean keyword. -/
inductive CBStatus where
  | closed
  | opened
  | halfOpen
deriving DecidableEq

/-- The shared `circuitState` object of one CircuitBreaker attachment
(src/unnamed/part_004, lines 85-89). -/
structure CBState where
  failures : Nat
  status : CBStatus
  lastFailureTime : Int
deriving DecidableEq

/-- Error surfaced by a CircuitBreaker-wrapped call: either the synthesized
circuit-open rejection or the underlying operation's error. -/
inductive CBErr (ε : Type) where
  | circuitOpen
  | under (e : ε)
deriving DecidableEq

/-- Embedding of the try block of the wrapped method plus `handleFailure` and
`updateState` (src/unnamed/part_004, lines 95-154), run once the open-state
gate has been passed.  `opRes` is how the underlying call settles (the sync
and async paths mutate the state identically).  Returns the surfaced result,
the new state, whether the underlying operation was invoked, and the list of
`onStateChange` notifications fired (`updateState` only fires on change). -/
def cbRun {ε α : Type} (F : Nat) (s : CBState) (now : Int) (opRes : Except ε α) :
    Except (CBErr ε) α × CBState × Bool × List CBStatus :=
  match opRes with
  | .ok v =>
    if s.status = .halfOpen then
      (.ok v, ⟨0, .closed, s.lastFailureTime⟩, true, [.closed])
    else (.ok v, s, true, [])
  | .error e =>
    if F ≤ s.failures + 1 then
      (.error (.under e), ⟨s.failures + 1, .opened, now⟩, true,
        if s.status = .opened then [] else [.opened])
    else (.error (.under e), ⟨s.failures + 1, s.status, now⟩, true, [])

/-- Embedding of one call of a CircuitBreaker-wrapped method
(src/unnamed/part_004, lines 111-156): while open, either reject without
invoking or, once `resetTimeout` has elapsed since `lastFailureTime`,
transition to half-open and let the call through. -/
def cbStep {ε α : Type} (F : Nat) (R : Int) (s : CBState) (now : Int)
    (opRes : Except ε α) : Except (CBErr ε) α × CBState × Bool × List CBStatus :=
  if s.status = .opened then
    if R ≤ now - s.lastFailureTime then
      let r := cbRun F ⟨s.failures, .halfOpen, s.lastFailureTime⟩ now opRes
      (r.1, r.2.1, r.2.2.1, .halfOpen :: r.2.2.2)
    else (.error .circuitOpen, s, false, [])
  else cbRun F s now opRes

/-- Relabel the error side of an outcome (used where a wrapper passes the
underlying call's result through unchanged into a wider error domain). -/
def Outcome.mapErr {ε ε' α : Type} (f : ε → ε') : Outcome ε α → Outcome ε' α
  | .imm v => .imm v
  | .exn e => .exn (f e)
  | .pend (.ok v) => .pend (.ok v)
  | .pend (.error e) => .pend (.error (f e))

/-- Error thrown by a RateLimited-wrapped call: the synthesized rate-limit
rejection carrying `resetTime = oldestRequest + window - now` (reported in
the error message), or the underlying operation's own error. -/
inductive RLErr (ε : Type) where
  | limited (resetTime : Int)
  | under (e : ε)
deriving DecidableEq

/-- Math.min over a spread array.  Returns 0 for the empty list; the source
only evaluates it when the pruned list has length at least `limit`, so the
empty case (JavaScript's Infinity) is reachable only for limit = 0. -/
def jsMin : List Int → Int
  | [] => 0
  | t :: rest => rest.foldl min t

/-- Embedding of one call of a RateLimited-wrapped method
(src/src/decorators/method/validation.ts, lines 101-132).  The shared
`rateLimitState` maps scope-and-method keys to request timestamp lists; a
call prunes timestamps at or before `now - window`, rejects without
recording anything when `limit` many remain, and otherwise writes back the
pruned list with `now` appended and invokes the operation.  Returns the
outcome, the new state, and whether the operation was invoked. -/
def rateLimitedCall {ε α : Type} (limit : Nat) (window : Int)
    (op : Outcome ε α) (scope method : String) (now : Int)
    (st : List ((String × String) × List Int)) :
    Outcome (RLErr ε) α × List ((String × String) × List Int) × Bool :=
  let windowStart := now - window
  let key := (scope, method)
  let requestTimestamps := (alookup st key).getD []
  let pruned := requestTimestamps.filter (fun t => windowStart < t)
  if limit ≤ pruned.length then
    let oldestRequest := jsMin pruned
    let resetTime := oldestRequest + window - now
    (.exn (.limited resetTime), st, false)
  else
    (op.mapErr .under, aset st key (pruned ++ [now]), true)

/-- A sequence of RateLimited calls on one key at the given times, threading
the shared state; returns the per-call invoked flags and the final state. -/
def rlRun {ε α : Type} (limit : Nat) (window : Int) (op : Outcome ε α)
    (scope method : String) :
    List Int → List ((String × String) × List Int) →
      List Bool × List ((String × String) × List Int)
  | [], st => ([], st)
  | t :: rest, st =>
    let r := rateLimitedCall limit window op scope method t st
    let rec' := rlRun limit window op scope method rest r.2.1
    (r.2.2 :: rec'.1, rec'.2)

/-- The remaining timestamps as claim C7 words the pruning: only timestamps
strictly older than now - window are removed, so a timestamp equal to
now - window still remains.  (Refinement comparison only; the source filter
keeps strictly newer timestamps.) -/
def specRemaining (window now : Int) (ts : List Int) : List Int :=
  ts.filter (fun t => now - window ≤ t)

/-- A cache entry (src/src/decorators/method/cache.ts, lines 3-6). -/
structure CEntry (V : Type) where
  value : V
  expiry : Option Int
deriving DecidableEq

/-- JavaScript truthiness of the `cached.expiry` field: undefined (none) and
0 are falsy. -/
def expiryFalsy : Option Int → Bool
  | none => true
  | some e => e == 0

/-- The hit test `!cached.expiry || cached.expiry > Date.now()` (cache.ts,
line 46). -/
def cacheHit (e : Option Int) (now : Int) : Bool :=
  expiryFalsy e || decide (now < e.getD 0)

/-- One call of a decorated method: the receiver's class name, the serialized
arguments, and the clock reading. -/
structure CCall where
  scope : String
  argsStr : String
  now : Int

/-- Embedding of one call of a Cached-wrapped method (cache.ts, lines 37-70).
`op scope args` is how `originalMethod.apply(this, args)` settles, determined
by the receiver's class and the serialized arguments.  The string cache key
`scope:method:args` is modelled as the tuple of its components.  The config
`expiryTime = 0` models the falsy (unset) option.  For async results the
store happens at resolution; in this single-call embedding the stored expiry
uses the call's clock reading.  Returns the outcome, the new cache, and
whether the underlying operation was invoked. -/
def cachedCall {ε V : Type} (expiryTime : Int)
    (op : String → String → Outcome ε V) (method : String) (c : CCall)
    (cache : List ((String × String × String) × CEntry V)) :
    Outcome ε V × List ((String × String × String) × CEntry V) × Bool :=
  let cacheKey := (c.scope, method, c.argsStr)
  let newExpiry : Option Int :=
    if expiryTime == 0 then none else some (c.now + expiryTime)
  let runMiss := fun (cache₁ : List ((String × String × String) × CEntry V)) =>
    match op c.scope c.argsStr with
    | .imm v => (Outcome.imm v, aset cache₁ cacheKey ⟨v, newExpiry⟩, true)
    | .exn e => (Outcome.exn e, cache₁, true)
    | .pend (.ok v) => (Outcome.pend (.ok v), aset cache₁ cacheKey ⟨v, newExpiry⟩, true)
    | .pend (.error e) => (Outcome.pend (.error e), cache₁, true)
  match alookup cache cacheKey with
  | some cached =>
    if cacheHit cached.expiry c.now then (.imm cached.value, cache, false)
    else runMiss (adel cache cacheKey)
  | none => runMiss cache

/-- Embedding of one call of a Memoize-wrapped method (cache.ts, lines
85-103).  The key `method:args` (no scope component) is modelled as the
tuple of its components. -/
def memoizeCall {ε V : Type} (op : String → String → Outcome ε V)
    (method : String) (c : CCall) (memo : List ((String × String) × V)) :
    Outcome ε V × List ((String × String) × V) × Bool :=
  let key := (method, c.argsStr)
  match alookup memo key with
  | some v => (Outcome.imm v, memo, false)
  | none =>
    match op c.scope c.argsStr with
    | .imm v => (Outcome.imm v, aset memo key v, true)
    | .exn e => (Outcome.exn e, memo, true)
    | .pend (.ok v) => (Outcome.pend (.ok v), aset memo key v, true)
    | .pend (.error e) => (Outcome.pend (.error e), memo, true)

/-- A sequence of calls of one Cached-wrapped method, threading the cache;
returns the per-call outcomes and invoked flags, and the final cache. -/
def cachedRun {ε V : Type} (expiryTime : Int)
    (op : String → String → Outcome ε V) (method : String) :
    List CCall → List ((String × String × String) × CEntry V) →
      List (Outcome ε V × Bool) × List ((String × String × String) × CEntry V)
  | [], cache => ([], cache)
  | c :: rest, cache =>
    let r := cachedCall expiryTime op method c cache
    let rec' := cachedRun expiryTime op method rest r.2.1
    ((r.1, r.2.2) :: rec'.1, rec'.2)

/-- A sequence of calls of one Memoize-wrapped method. -/
def memoizeRun {ε V : Type} (op : String → String → Outcome ε V)
    (method : String) :
    List CCall → List ((String × String) × V) →
      List (Outcome ε V × Bool) × List ((String × String) × V)
  | [], memo => ([], memo)
  | c :: rest, memo =>
    let r := memoizeCall op method c memo
    let rec' := memoizeRun op method rest r.2.1
    ((r.1, r.2.2) :: rec'.1, rec'.2)

/-- Number of calls in a run that invoked the underlying operation. -/
def invokedCount {ε V : Type} (l : List (Outcome ε V × Bool)) : Nat :=
  l.countP (fun p => p.2)

/-- Correspondence between a Memoize store and the Cached store it would be
under scope `s` with no expiry. -/
def memoToCache {V : Type} (s : String) :
    ((String × String) × V) → ((String × String × String) × CEntry V) :=
  fun p => ((s, p.1.1, p.1.2), ⟨p.2, none⟩)

/-- Embedding of a burst of calls on one key of a debounced method
(src/unnamed/part_003, DebounceSync lines 17-37 and DebounceAsync lines
55-79; the two variants are observably alike here).  Each call clears the
previously stored timeout, so a caller's returned promise resolves only if
its own scheduled timeout fires before the next call clears it; the fired
invocation runs with that caller's arguments.  Calls are (time, args) pairs
in time order; a timeout scheduled at time t fires before a next call at t₂
exactly when t + delay ≤ t₂.  Returns the argument lists actually executed
(in order) and, per caller, how its returned promise settles (none: the
timeout was cleared, so the promise never resolves). -/
def debounceGo {A B : Type} (delay : Int) (op : A → B) :
    (Int × A) → List (Int × A) → List A × List (Option B)
  | (_, a), [] => ([a], [some (op a)])
  | (t, a), (t₂, a₂) :: rest =>
    let r := debounceGo delay op (t₂, a₂) rest
    if t + delay ≤ t₂ then (a :: r.1, some (op a) :: r.2)
    else (r.1, none :: r.2)

/-- A whole burst, starting with no pending timeout. -/
def debounceRun {A B : Type} (delay : Int) (op : A → B) :
    List (Int × A) → List A × List (Option B)
  | [] => ([], [])
  | c :: rest => debounceGo delay op c rest

/-- Map the value side of an outcome (used where a wrapper changes the value
type without touching the call shape). -/
def Outcome.mapVal {ε α β : Type} (f : α → β) : Outcome ε α → Outcome ε β
  | .imm v => .imm (f v)
  | .exn e => .exn e
  | .pend r => .pend (r.map f)

/-- Error surfaced by a Timeout-wrapped call: the synthesized timeout
rejection or the underlying operation's own error. -/
inductive TimeoutErr (ε : Type) where
  | timedOut
  | under (e : ε)
deriving DecidableEq

/-- Embedding of a Timeout-wrapped call (src/unnamed/part_004, lines 64-73).
A synchronous throw in `originalMethod.apply` escapes before
`Promise.resolve` wraps the result; every other call receives the race
promise.  `timerWins` says whether the timer settles first, which is only
possible for a pending operation (an immediate value is already settled when
the race starts). -/
def timeoutValue {ε α : Type} (o : Outcome ε α) (timerWins : Bool) :
    Outcome (TimeoutErr ε) α :=
  match o with
  | .exn e => .exn (.under e)
  | .imm v => .pend (.ok v)
  | .pend r => .pend (if timerWins then .error .timedOut else r.mapError .under)

/-- The CircuitBreaker wrapper always hands the caller a promise: the
wrapped method opens with `return new Promise(...)` (src/unnamed/part_004,
lines 112-113). -/
def cbValue {ε α : Type} (F : Nat) (R : Int) (s : CBState) (now : Int)
    (opRes : Except ε α) : Outcome (CBErr ε) α :=
  .pend (cbStep F R s now opRes).1

/-- Embedding of a Fallback-wrapped call (src/unnamed/part_004, lines
170-184).  `fb` is how the fallback function's call settles when it is
invoked; on an async rejection the fallback runs inside `.catch`, so its
outcome is delivered through the returned promise. -/
def fallbackValue {ε α : Type} (o fb : Outcome ε α) : Outcome ε α :=
  match o with
  | .imm v => .imm v
  | .exn _ => fb
  | .pend (.ok v) => .pend (.ok v)
  | .pend (.error _) =>
    match fb with
    | .imm v => .pend (.ok v)
    | .exn e => .pend (.error e)
    | .pend r => .pend r

/-- Embedding of a ThrottleSync-wrapped call (src/unnamed/part_003, lines
97-108) on one key: executed calls record now and return the operation's
value; gated calls return undefined (modelled as an immediate none) without
invoking.  Returns the outcome, the new lastCall map, and whether the
operation was invoked. -/
def throttleSyncCall {ε α : Type} (interval : Int) (op : Outcome ε α)
    (scope method : String) (now : Int)
    (st : List ((String × String) × Int)) :
    Outcome ε (Option α) × List ((String × String) × Int) × Bool :=
  let key := (scope, method)
  let lastCall := (alookup st key).getD 0
  if interval ≤ now - lastCall then
    (op.mapVal some, aset st key now, true)
  else (.imm none, st, false)

/-- Embedding of an EffectBefore-wrapped call
(src/src/decorators/method/lifecycle.ts, lines 11-26).  `hook` is how the
call `fn(effectContext)` settles; it runs before the method, a synchronous
hook throw escapes with the method never invoked, a pending hook result is
awaited (its value discarded, its rejection replacing the result) before the
method's own result is released, and a synchronous method throw escapes in
every remaining case. -/
def effectBeforeValue {ε α β : Type} (hook : Outcome ε β) (o : Outcome ε α) :
    Outcome ε α :=
  match hook with
  | .exn e => .exn e
  | .imm _ => o
  | .pend hr =>
    match o with
    | .exn e => .exn e
    | .imm v => .pend (match hr with | .ok _ => .ok v | .error e => .error e)
    | .pend r => .pend (match hr with | .ok _ => r | .error e => .error e)

/-- Embedding of an EffectAfter-wrapped call
(src/src/decorators/method/lifecycle.ts, lines 40-68).  The hook runs only
after a successful result: a synchronous method throw and an async rejection
skip it; on the sync path a synchronous hook throw escapes and a pending
hook result is awaited before the original value is returned; on the async
path the hook runs inside the then-callback, so its throw or rejection
rejects the returned promise, and otherwise the original value is
released. -/
def effectAfterValue {ε α β : Type} (hook : Outcome ε β) (o : Outcome ε α) :
    Outcome ε α :=
  match o with
  | .exn e => .exn e
  | .imm v =>
    match hook with
    | .exn e => .exn e
    | .imm _ => .imm v
    | .pend hr => .pend (match hr with | .ok _ => .ok v | .error e => .error e)
  | .pend (.error e) => .pend (.error e)
  | .pend (.ok v) =>
    match hook with
    | .exn e => .pend (.error e)
    | .imm _ => .pend (.ok v)
    | .pend hr => .pend (match hr with | .ok _ => .ok v | .error e => .error e)

/-- Embedding of an EffectError-wrapped call
(src/src/decorators/method/lifecycle.ts, lines 82-118).  The hook runs only
on failure: successes pass through untouched; after the hook (and its
pending result, if any) completes, the original error is rethrown, except
that the hook's own throw or rejection replaces it. -/
def effectErrorValue {ε α β : Type} (hook : Outcome ε β) (o : Outcome ε α) :
    Outcome ε α :=
  match o with
  | .imm v => .imm v
  | .pend (.ok v) => .pend (.ok v)
  | .exn e =>
    match hook with
    | .exn he => .exn he
    | .imm _ => .exn e
    | .pend hr => .pend (match hr with | .ok _ => .error e | .error he => .error he)
  | .pend (.error e) =>
    match hook with
    | .exn he => .pend (.error he)
    | .imm _ => .pend (.error e)
    | .pend hr => .pend (match hr with | .ok _ => .error e | .error he => .error he)

/-- A value as a debounced caller receives it: either an immediate value or
a promise, which may settle with a value or never settle at all. -/
inductive DebValue (B : Type) where
  | imm (b : B)
  | pend (settle : Option B)

/-- True when the debounced caller received a promise. -/
def DebValue.isPending {B : Type} : DebValue B → Bool
  | .pend _ => true
  | _ => false

/-- What the i-th caller of a debounce burst gets back.  Both variants hand
every caller an unconditionally fresh promise (`return new Promise(resolve
=> ...)` at src/unnamed/part_003 line 27, `return debouncePromise.then(...)`
at line 76); its settlement, if any, comes from the burst semantics
(`debounceRun`). -/
def debounceValueAt {A B : Type} (delay : Int) (op : A → B)
    (calls : List (Int × A)) (i : Nat) : DebValue B :=
  .pend ((debounceRun delay op calls).2.getD i none)

/-- On an always-failing operation, one top-level retry sequence starting at
counter value `t ≤ N` performs `N + 1 - t` invocations, surfaces the error of
the last invocation, and inserts the waits dictated by the strategy. -/
theorem retryGo_fail {ε α : Type} (op : Nat → Except ε α) (err : Nat → ε)
    (hop : ∀ k, op k = .error (err k)) (N : Nat) (s : Bool) (B : Nat) :
    ∀ t, t ≤ N → retryGo op N s B t =
      (.error (err (N + 1)), N + 1 - t,
        (List.range (N - t)).map (fun i => if s then B * 2 ^ (t + i) else B)) := by
  have main : ∀ m t, t ≤ N → N - t = m →
      retryGo op N s B t =
        (.error (err (N + 1)), N + 1 - t,
          (List.range (N - t)).map (fun i => if s then B * 2 ^ (t + i) else B)) := by
    intro m
    induction m with
    | zero =>
      intro t ht hm
      have hEq : t = N := by omega
      subst hEq
      rw [retryGo, hop]
      simp
    | succ m ih =>
      intro t ht hm
      rw [retryGo, hop]
      have hlt : ¬ (N + 1 ≤ t + 1) := by omega
      simp only [if_neg hlt]
      rw [ih (t + 1) (by omega) (by omega)]
      have hrange : N - t = (N - (t + 1)) + 1 := by omega
      have h2 : N + 1 - (t + 1) + 1 = N + 1 - t := by omega
      rw [h2, hrange, List.range_succ_eq_map, List.map_cons, List.map_map]
      have hfun : ((fun i => if s = true then B * 2 ^ (t + i) else B) ∘ Nat.succ) =
          (fun i => if s = true then B * 2 ^ (t + 1 + i) else B) := by
        funext i
        have hadd : t + (i + 1) = t + 1 + i := by omega
        simp [Function.comp, Nat.succ_eq_add_one, hadd]
      rw [hfun]
      simp
  intro t ht
  exact main (N - t) t ht rfl

/-- Sum of a function mapped over an initial segment of the naturals. -/
theorem list_sum_map_range (f : Nat → Nat) (n : Nat) :
    ((List.range n).map f).sum = ∑ i in Finset.range n, f i := by
  induction n with
  | zero => simp
  | succ n ih =>
    rw [List.range_succ, List.map_append, List.sum_append, Finset.sum_range_succ, ih]
    simp

/-- C2: for a Retry-wrapped operation with maxRetries = N and an underlying
operation failing on every attempt, a single top-level call invokes the
underlying operation exactly N + 1 times, and the surfaced error is exactly
the error produced by the last (N + 1 - th) invocation. -/
theorem retry_budget_C2 {ε α : Type} (op : Nat → Except ε α) (err : Nat → ε)
    (N : Nat) (s : Bool) (B : Nat) (hop : ∀ k, op k = .error (err k)) :
    (retryCall op N s B).2.1 = N + 1 ∧
      (retryCall op N s B).1 = .error (err (N + 1)) := by
  rw [retryCall, retryGo_fail op err hop N s B 0 (Nat.zero_le N)]
  exact ⟨rfl, rfl⟩

/-- Witness for C2 at maxRetries = 2: three invocations, last error surfaced. -/
theorem retry_budget_C2_witness :
    (retryCall (fun k => (Except.error k : Except Nat Unit)) 2 false 5).2.1 = 3 ∧
      (retryCall (fun k => (Except.error k : Except Nat Unit)) 2 false 5).1 =
        .error 3 :=
  retry_budget_C2 (fun k => Except.error k) (fun k => k) 2 false 5 (fun _ => rfl)

/-- C8: with strategy exponential and base backoff B, the wait after the a-th
failed attempt is exactly B * 2 ^ (a - 1) (the waits list, 1-indexed by a, is
B * 2 ^ 0, B * 2 ^ 1, ...), so the total wait before the k-th retry is at
least B * (2 ^ 0 + ... + 2 ^ (k - 1)); with strategy normal every wait is B. -/
theorem retry_backoff_C8 {ε α : Type} (op : Nat → Except ε α) (err : Nat → ε)
    (N B : Nat) (hop : ∀ k, op k = .error (err k)) :
    (retryCall op N true B).2.2 = (List.range N).map (fun i => B * 2 ^ i) ∧
      (∀ k, k ≤ N →
        B * (∑ i in Finset.range k, 2 ^ i) ≤
          ((retryCall op N true B).2.2.take k).sum) ∧
      (retryCall op N false B).2.2 = List.replicate N B := by
  have hexp := retryGo_fail op err hop N true B 0 (Nat.zero_le N)
  have hnorm := retryGo_fail op err hop N false B 0 (Nat.zero_le N)
  have hexp2 : (retryCall op N true B).2.2 =
      (List.range N).map (fun i => B * 2 ^ i) := by
    rw [retryCall, hexp]
    simp
  have hnorm2 : (retryCall op N false B).2.2 = List.replicate N B := by
    rw [retryCall, hnorm]
    simp [List.eq_replicate_iff, List.mem_map]
  refine ⟨hexp2, ?_, hnorm2⟩
  intro k hk
  rw [hexp2, ← List.map_take, List.take_range, inf_eq_left.mpr hk]
  rw [list_sum_map_range, Finset.mul_sum]

/-- Witness for C8 at N = 3, B = 7. -/
theorem retry_backoff_C8_witness :
    (retryCall (fun k => (Except.error k : Except Nat Unit)) 3 true 7).2.2 =
        (List.range 3).map (fun i => 7 * 2 ^ i) ∧
      (∀ k, k ≤ 3 →
        7 * (∑ i in Finset.range k, 2 ^ i) ≤
          ((retryCall (fun k => (Except.error k : Except Nat Unit)) 3 true
            7).2.2.take k).sum) ∧
      (retryCall (fun k => (Except.error k : Except Nat Unit)) 3 false 7).2.2 =
        List.replicate 3 7 :=
  retry_backoff_C8 (fun k => Except.error k) (fun k => k) 3 7 (fun _ => rfl)

/-- The underlying operation is always invoked once the open-state gate has
been passed. -/
theorem cbRun_invoked {ε α : Type} (F : Nat) (s : CBState) (now : Int)
    (opRes : Except ε α) : (cbRun F s now opRes).2.2.1 = true := by
  cases opRes <;> simp only [cbRun] <;> split <;> simp

/-- C1: with failureThreshold F and resetTimeout R: the F-th failure in Closed
transitions to Open (recording the failure time); a call while Open before R
has elapsed is rejected with the circuit-open error without invoking the
operation and without changing state; a call while Open after R has elapsed
is let through (transitioning through Half-Open), and on success the breaker
closes with failures reset to 0, while on failure it returns to Open with
lastFailureTime updated to now. -/
theorem circuitBreaker_C1 {ε α : Type} (F : Nat) (R : Int) (s : CBState)
    (now : Int) :
    (∀ e : ε, s.status = .closed → s.failures + 1 = F →
      cbStep F R s now (.error e) (α := α) =
        (.error (.under e), ⟨F, .opened, now⟩, true, [.opened])) ∧
    (∀ r : Except ε α, s.status = .opened → now - s.lastFailureTime < R →
      cbStep F R s now r = (.error .circuitOpen, s, false, [])) ∧
    (∀ r : Except ε α, s.status = .opened → R ≤ now - s.lastFailureTime →
      (cbStep F R s now r).2.2.1 = true) ∧
    (∀ v : α, s.status = .opened → R ≤ now - s.lastFailureTime →
      cbStep F R s now (.ok v) (ε := ε) =
        (.ok v, ⟨0, .closed, s.lastFailureTime⟩, true, [.halfOpen, .closed])) ∧
    (∀ e : ε, s.status = .opened → R ≤ now - s.lastFailureTime →
      F ≤ s.failures →
      cbStep F R s now (.error e) (α := α) =
        (.error (.under e), ⟨s.failures + 1, .opened, now⟩, true,
          [.halfOpen, .opened])) := by
  obtain ⟨f, st, lft⟩ := s
  refine ⟨?_, ?_, ?_, ?_, ?_⟩
  · intro e h1 h2
    simp only at h1
    subst h1
    simp only at h2
    subst h2
    simp [cbStep, cbRun]
  · intro r h1 h2
    simp only at h1
    subst h1
    simp only at h2
    have h3 : ¬ (R ≤ now - lft) := not_le.mpr h2
    simp [cbStep, h3]
  · intro r h1 h2
    simp only at h1
    subst h1
    simp only at h2
    simp [cbStep, h2, cbRun_invoked]
  · intro v h1 h2
    simp only at h1
    subst h1
    simp only at h2
    simp [cbStep, cbRun, h2]
  · intro e h1 h2 h3
    simp only at h1
    subst h1
    simp only at h2 h3
    have h4 : F ≤ f + 1 := by omega
    simp [cbStep, cbRun, h2, h4]

/-- Witness for C1 at F = 2, R = 10: the four transition scenarios at
concrete states and times. -/
theorem circuitBreaker_C1_witness :
    (cbStep (ε := Unit) (α := Unit) 2 10 ⟨1, .closed, 0⟩ 5 (.error ()) =
      (.error (.under ()), ⟨2, .opened, 5⟩, true, [.opened])) ∧
    (cbStep (ε := Unit) (α := Unit) 2 10 ⟨2, .opened, 100⟩ 105 (.error ()) =
      (.error .circuitOpen, ⟨2, .opened, 100⟩, false, [])) ∧
    (cbStep (ε := Unit) (α := Unit) 2 10 ⟨2, .opened, 100⟩ 110 (.ok ()) =
      (.ok (), ⟨0, .closed, 100⟩, true, [.halfOpen, .closed])) ∧
    (cbStep (ε := Unit) (α := Unit) 2 10 ⟨2, .opened, 100⟩ 110 (.error ()) =
      (.error (.under ()), ⟨3, .opened, 110⟩, true, [.halfOpen, .opened])) :=
  ⟨(circuitBreaker_C1 2 10 ⟨1, .closed, 0⟩ 5).1 () rfl rfl,
   (circuitBreaker_C1 2 10 ⟨2, .opened, 100⟩ 105).2.1 (.error ()) rfl (by decide),
   (circuitBreaker_C1 2 10 ⟨2, .opened, 100⟩ 110).2.2.2.1 () rfl (by decide),
   (circuitBreaker_C1 2 10 ⟨2, .opened, 100⟩ 110).2.2.2.2 () rfl (by decide)
     (by decide)⟩

/-- Setting a key makes it the lookup result. -/
theorem alookup_aset {κ ν : Type} [DecidableEq κ] (st : List (κ × ν)) (k : κ)
    (v : ν) : alookup (aset st k v) k = some v := by
  induction st with
  | nil => simp [aset, alookup]
  | cons hd rest ih =>
    obtain ⟨k', v'⟩ := hd
    by_cases h : k' = k
    · subst h
      simp [aset, alookup]
    · simp [aset, alookup, h, ih]

/-- The minimum of a nonempty list is one of its elements. -/
theorem jsMin_mem (t : Int) (rest : List Int) : jsMin (t :: rest) ∈ t :: rest := by
  induction rest generalizing t with
  | nil => simp [jsMin]
  | cons r rest ih =>
    have h := ih (min t r)
    have hch : min t r = t ∨ min t r = r := min_choice t r
    have heq : jsMin (t :: r :: rest) = jsMin (min t r :: rest) := by
      simp [jsMin]
    rw [heq]
    rcases hch with hc | hc <;> rcases List.mem_cons.mp h with h' | h' <;>
      simp [h', hc] at * <;> simp_all

/-- C9: when a RateLimited call is rejected, the stored per-key window state
is left exactly as it was before the call (the call's own timestamp is not
recorded and the pruned list is not written back), the operation is not
invoked, and the surfaced outcome is the synthesized rate-limit throw. -/
theorem rateLimit_reject_pure_C9 {ε α : Type} (limit : Nat) (window : Int)
    (op : Outcome ε α) (scope method : String) (now : Int)
    (st : List ((String × String) × List Int))
    (h : limit ≤ ((((alookup st (scope, method)).getD []).filter
      (fun t => now - window < t)).length)) :
    (rateLimitedCall limit window op scope method now st).2.1 = st ∧
    (rateLimitedCall limit window op scope method now st).2.2 = false ∧
    (rateLimitedCall limit window op scope method now st).1 =
      .exn (.limited (jsMin (((alookup st (scope, method)).getD []).filter
        (fun t => now - window < t)) + window - now)) := by
  simp [rateLimitedCall, if_pos h]

/-- Witness for C9: a second call within the window at limit 1 is rejected
and leaves the stored timestamp list untouched. -/
theorem rateLimit_reject_pure_C9_witness :
    (rateLimitedCall (ε := Unit) (α := Unit) 1 10 (.imm ()) "A" "m" 100
        [(("A", "m"), [95])]).2.1 = [(("A", "m"), [95])] ∧
    (rateLimitedCall (ε := Unit) (α := Unit) 1 10 (.imm ()) "A" "m" 100
        [(("A", "m"), [95])]).2.2 = false ∧
    (rateLimitedCall (ε := Unit) (α := Unit) 1 10 (.imm ()) "A" "m" 100
        [(("A", "m"), [95])]).1 =
      .exn (.limited (jsMin (((alookup [(("A", "m"), [95])]
        ("A", "m")).getD []).filter (fun t => (100 : Int) - 10 < t)) +
        10 - 100)) :=
  rateLimit_reject_pure_C9 1 10 (.imm ()) "A" "m" 100 [(("A", "m"), [95])]
    (by decide)

/-- Counterexample to C7 as stated: with limit 1 and window 10, a stored
timestamp exactly at now - window is pruned by the source (the call is
allowed and invokes the operation), although under the claim's pruning it
would remain, making the remaining count reach the limit, so the claim
requires the call to fail. -/
theorem rateLimit_C7_cex :
    (rateLimitedCall (ε := Unit) (α := Unit) 1 10 (.imm ()) "A" "m" 100
        [(("A", "m"), [90])]).2.2 = true ∧
    1 ≤ (specRemaining 10 100 [90]).length := by
  constructor
  · rfl
  · decide

/-- While the recorded timestamps all stay inside the sliding window and the
total count stays at or below the limit, every call succeeds, is recorded,
and the key's stored list grows in call order. -/
theorem rlRun_fill {ε α : Type} (limit : Nat) (window : Int) (op : Outcome ε α)
    (scope method : String) :
    ∀ (times acc : List Int) (st : List ((String × String) × List Int)),
      (alookup st (scope, method)).getD [] = acc →
      acc.length + times.length ≤ limit →
      (∀ x ∈ acc ++ times, ∀ t ∈ times, t - window < x) →
      (rlRun limit window op scope method times st).1 =
        List.replicate times.length true ∧
      (alookup (rlRun limit window op scope method times st).2
        (scope, method)).getD [] = acc ++ times := by
  intro times
  induction times with
  | nil =>
    intro acc st hacc hlen hwin
    simp [rlRun, hacc]
  | cons t rest ih =>
    intro acc st hacc hlen hwin
    have hkeep : acc.filter (fun x => decide (t - window < x)) = acc := by
      rw [List.filter_eq_self]
      intro a ha
      simp only [decide_eq_true_eq]
      exact hwin a (List.mem_append_left _ ha) t (List.mem_cons_self t rest)
    have hlt : ¬ (limit ≤ acc.length) := by
      simp only [List.length_cons] at hlen
      omega
    obtain ⟨ih1, ih2⟩ := ih (acc ++ [t]) (aset st (scope, method) (acc ++ [t]))
      (by rw [alookup_aset]; rfl)
      (by simp at hlen ⊢; omega)
      (by
        intro x hx t' ht'
        have hx' : x ∈ acc ++ t :: rest := by
          simp only [List.mem_append, List.mem_cons, List.mem_singleton] at hx ⊢
          tauto
        exact hwin x hx' t' (List.mem_cons_of_mem _ ht'))
    refine ⟨?_, ?_⟩
    · simp only [rlRun, rateLimitedCall, hacc, hkeep, if_neg hlt]
      rw [ih1]
      simp [List.replicate_succ]
    · simp only [rlRun, rateLimitedCall, hacc, hkeep, if_neg hlt]
      rw [ih2]
      simp

/-- Running a rate-limited call sequence splits across list append. -/
theorem rlRun_append {ε α : Type} (limit : Nat) (window : Int)
    (op : Outcome ε α) (scope method : String) (l₁ l₂ : List Int)
    (st : List ((String × String) × List Int)) :
    rlRun limit window op scope method (l₁ ++ l₂) st =
      ((rlRun limit window op scope method l₁ st).1 ++
        (rlRun limit window op scope method l₂
          (rlRun limit window op scope method l₁ st).2).1,
       (rlRun limit window op scope method l₂
         (rlRun limit window op scope method l₁ st).2).2) := by
  induction l₁ generalizing st with
  | nil => simp [rlRun]
  | cons t rest ih => simp [rlRun, ih]

/-- C7 (amended): on each call, timestamps at or before now - window are
pruned; the call is rejected exactly when at least limit timestamps remain
after pruning, and otherwise now is recorded and the operation invoked with
the result passed through; a reported retry-after is at most window; and
limit calls within one window succeed while the following call in the same
window fails. -/
theorem rateLimit_window_C7 {ε α : Type} (limit : Nat) (window : Int)
    (op : Outcome ε α) (scope method : String) (now : Int)
    (st : List ((String × String) × List Int)) :
    ((rateLimitedCall limit window op scope method now st).2.2 = false ↔
      limit ≤ (((alookup st (scope, method)).getD []).filter
        (fun x => now - window < x)).length) ∧
    (¬ limit ≤ (((alookup st (scope, method)).getD []).filter
        (fun x => now - window < x)).length →
      rateLimitedCall limit window op scope method now st =
        (op.mapErr .under,
          aset st (scope, method)
            ((((alookup st (scope, method)).getD []).filter
              (fun x => now - window < x)) ++ [now]), true)) ∧
    (∀ rt, 1 ≤ limit →
      (∀ x ∈ (alookup st (scope, method)).getD [], x ≤ now) →
      (rateLimitedCall limit window op scope method now st).1 =
        .exn (.limited rt) →
      rt ≤ window) ∧
    (∀ (times : List Int) (T : Int),
      times.length = limit →
      (∀ x ∈ times, ∀ t ∈ times ++ [T], t - window < x) →
      (rlRun limit window op scope method (times ++ [T]) []).1 =
        List.replicate limit true ++ [false]) := by
  refine ⟨?_, ?_, ?_, ?_⟩
  · by_cases h : limit ≤ (((alookup st (scope, method)).getD []).filter
        (fun x => now - window < x)).length
    · simp [rateLimitedCall, if_pos h, h]
    · simp only [rateLimitedCall, if_neg h]
      simpa using h
  · intro h
    simp only [rateLimitedCall, if_neg h]
  · intro rt hlim hle hres
    by_cases h : limit ≤ (((alookup st (scope, method)).getD []).filter
        (fun x => now - window < x)).length
    · simp only [rateLimitedCall, if_pos h] at hres
      have hrt : rt = jsMin (((alookup st (scope, method)).getD []).filter
          (fun x => now - window < x)) + window - now := by
        cases hres
        rfl
      obtain ⟨a, l, hcons⟩ : ∃ a l, ((alookup st (scope, method)).getD []).filter
          (fun x => now - window < x) = a :: l := by
        rcases hp : ((alookup st (scope, method)).getD []).filter
            (fun x => now - window < x) with _ | ⟨a, l⟩
        · rw [hp] at h
          simp at h
          omega
        · exact ⟨a, l, rfl⟩
      have hmem : jsMin (a :: l) ∈ a :: l := jsMin_mem a l
      rw [← hcons] at hmem
      have hmem2 := List.mem_of_mem_filter hmem
      have hlenow : jsMin (((alookup st (scope, method)).getD []).filter
          (fun x => now - window < x)) ≤ now := hle _ hmem2
      rw [hrt, hcons] at *
      omega
    · simp only [rateLimitedCall, if_neg h] at hres
      cases hop : op <;> rw [hop] at hres <;>
        simp only [Outcome.mapErr] at hres
      · cases hres
      · cases hres
      · rename_i r
        cases r <;> simp only [Outcome.mapErr] at hres <;> cases hres
  · intro times T hlen hwin
    obtain ⟨h1, h2⟩ := rlRun_fill limit window op scope method times [] []
      (by simp [alookup]) (by simp [hlen])
      (by
        intro x hx t ht
        simp only [List.nil_append] at hx
        exact hwin x hx t (List.mem_append_left _ ht))
    rw [rlRun_append, h1, hlen]
    have hkeepT : times.filter (fun x => decide (T - window < x)) = times := by
      rw [List.filter_eq_self]
      intro a ha
      simp only [decide_eq_true_eq]
      exact hwin a ha T (List.mem_append_right _ (List.mem_singleton_self T))
    have hcond : limit ≤ times.length := le_of_eq hlen.symm
    simp only [rlRun, rateLimitedCall, h2, List.nil_append, hkeepT, if_pos hcond]

/-- Witness for C7 at limit 2, window 10: an allowed first call records its
timestamp; a retry-after reported at a full window is at most the window;
two calls within the window succeed and the third fails. -/
theorem rateLimit_window_C7_witness :
    (rateLimitedCall (ε := Unit) (α := Unit) 2 10 (.imm ()) "A" "m" 0 [] =
      (.imm (), [(("A", "m"), [0])], true)) ∧
    (∀ rt, (rateLimitedCall (ε := Unit) (α := Unit) 2 10 (.imm ()) "A" "m" 7
        [(("A", "m"), [3, 5])]).1 = .exn (.limited rt) → rt ≤ 10) ∧
    ((rlRun (ε := Unit) (α := Unit) 2 10 (.imm ()) "A" "m" ([3, 5] ++ [7])
        []).1 = List.replicate 2 true ++ [false]) := by
  refine ⟨?_, ?_, ?_⟩
  · have h := (rateLimit_window_C7 (ε := Unit) (α := Unit) 2 10 (.imm ())
      "A" "m" 0 []).2.1 (by decide)
    rw [h]
    rfl
  · intro rt hrt
    exact (rateLimit_window_C7 2 10 (.imm ()) "A" "m" 7
      [(("A", "m"), [3, 5])]).2.2.1 rt (by decide) (by decide) hrt
  · exact (rateLimit_window_C7 2 10 (.imm ()) "A" "m" 0 []).2.2.2 [3, 5] 7
      (by decide) (by decide)

/-- Deleting a key removes it from lookups. -/
theorem alookup_adel {κ ν : Type} [DecidableEq κ] (st : List (κ × ν)) (k : κ) :
    alookup (adel st k) k = none := by
  induction st with
  | nil => simp [adel, alookup]
  | cons hd rest ih =>
    obtain ⟨k', v'⟩ := hd
    by_cases h : k' = k
    · subst h
      simp [adel, ih]
    · simp [adel, alookup, h, ih]

/-- Deleting one key leaves other keys' lookups unchanged. -/
theorem alookup_adel_ne {κ ν : Type} [DecidableEq κ] (st : List (κ × ν))
    (k k' : κ) (h : k' ≠ k) : alookup (adel st k) k' = alookup st k' := by
  induction st with
  | nil => simp [adel, alookup]
  | cons hd rest ih =>
    obtain ⟨k₁, v₁⟩ := hd
    by_cases h1 : k₁ = k
    · subst h1
      simp [adel, alookup, Ne.symm h, ih]
    · simp [adel, alookup, h1, ih]

/-- C4: with configured expiryTime = T: a call whose key has an entry with
no expiry or expiry > now returns the stored value without invoking the
underlying operation; a call whose entry has (positive) expiry ≤ now removes
the entry, invokes the operation, and stores the new result with expiry
now + T; consequently calls at t0 and t0 + T + eps invoke the operation
twice in total, while a call at t0 + T - eps after the call at t0 invokes it
only once in total. -/
theorem cached_ttl_C4 {ε V : Type} (T : Int) (op : String → String → Outcome ε V)
    (method : String) (hT : 0 < T) :
    (∀ (c : CCall) cache (ent : CEntry V),
      alookup cache (c.scope, method, c.argsStr) = some ent →
      (ent.expiry = none ∨ c.now < ent.expiry.getD 0) →
      cachedCall T op method c cache = (.imm ent.value, cache, false)) ∧
    (∀ (c : CCall) cache (ent : CEntry V) (ev : Int) (v : V),
      alookup cache (c.scope, method, c.argsStr) = some ent →
      ent.expiry = some ev → 0 < ev → ev ≤ c.now →
      op c.scope c.argsStr = .imm v →
      cachedCall T op method c cache =
        (.imm v, aset (adel cache (c.scope, method, c.argsStr))
          (c.scope, method, c.argsStr) ⟨v, some (c.now + T)⟩, true)) ∧
    (∀ (sc aStr : String) (t0 eps : Int) (v : V),
      0 < t0 → 0 < eps → op sc aStr = .imm v →
      invokedCount (cachedRun T op method
        [⟨sc, aStr, t0⟩, ⟨sc, aStr, t0 + T + eps⟩] []).1 = 2 ∧
      invokedCount (cachedRun T op method
        [⟨sc, aStr, t0⟩, ⟨sc, aStr, t0 + T - eps⟩] []).1 = 1) := by
  have hTne : ((T : Int) == 0) = false := by
    simp only [beq_iff_eq, beq_eq_false_iff_ne, ne_eq]
    omega
  refine ⟨?_, ?_, ?_⟩
  · intro c cache ent h1 h2
    have hhit : cacheHit ent.expiry c.now = true := by
      rcases hent : ent.expiry with _ | e
      · simp [cacheHit, expiryFalsy]
      · rcases h2 with h2 | h2
        · rw [hent] at h2
          cases h2
        · rw [hent] at h2
          simp only [Option.getD_some] at h2
          simp [cacheHit, h2]
    simp [cachedCall, h1, hhit]
  · intro c cache ent ev v h1 h2 h3 h4 h5
    have hmiss : cacheHit ent.expiry c.now = false := by
      simp only [cacheHit, h2, expiryFalsy, Option.getD_some, Bool.or_eq_false_iff,
        decide_eq_false_iff_not, not_lt, beq_eq_false_iff_ne, ne_eq]
      constructor
      · omega
      · omega
    simp [cachedCall, h1, hmiss, hTne, h5]
  · intro sc aStr t0 eps v ht0 heps hop
    have hz : ((t0 + T : Int) == 0) = false := by
      simp only [beq_eq_false_iff_ne, ne_eq]
      omega
    have hafter : ¬ (t0 + T + eps < t0 + T) := by omega
    have hbefore : t0 + T - eps < t0 + T := by omega
    constructor
    · simp [cachedRun, cachedCall, alookup, aset, hop, hTne, invokedCount,
        cacheHit, expiryFalsy, hz, hafter]
    · simp [cachedRun, cachedCall, alookup, aset, hop, hTne, invokedCount,
        cacheHit, expiryFalsy, hz, hbefore]

/-- Witness for C4 at T = 10: a fresh hit, an expired recompute, and the two
TTL scenarios at t0 = 1, eps = 1. -/
theorem cached_ttl_C4_witness :
    (cachedCall (ε := Unit) 10 (fun _ _ => .imm 0) "m" ⟨"A", "x", 5⟩
        [(("A", "m", "x"), ⟨7, none⟩)] =
      (.imm 7, [(("A", "m", "x"), ⟨7, none⟩)], false)) ∧
    (cachedCall (ε := Unit) 10 (fun _ _ => .imm 0) "m" ⟨"A", "x", 5⟩
        [(("A", "m", "x"), ⟨7, some 3⟩)] =
      (.imm 0, aset (adel [(("A", "m", "x"), ⟨7, some 3⟩)] ("A", "m", "x"))
        ("A", "m", "x") ⟨0, some 15⟩, true)) ∧
    (invokedCount (cachedRun (ε := Unit) 10 (fun _ _ => .imm (0 : Nat)) "m"
        [⟨"A", "x", 1⟩, ⟨"A", "x", 1 + 10 + 1⟩] []).1 = 2) ∧
    (invokedCount (cachedRun (ε := Unit) 10 (fun _ _ => .imm (0 : Nat)) "m"
        [⟨"A", "x", 1⟩, ⟨"A", "x", 1 + 10 - 1⟩] []).1 = 1) := by
  have h := cached_ttl_C4 (ε := Unit) (V := Nat) 10 (fun _ _ => .imm 0) "m"
    (by decide)
  refine ⟨?_, ?_, ?_, ?_⟩
  · exact h.1 ⟨"A", "x", 5⟩ [(("A", "m", "x"), ⟨7, none⟩)] ⟨7, none⟩
      (by decide) (Or.inl rfl)
  · exact h.2.1 ⟨"A", "x", 5⟩ [(("A", "m", "x"), ⟨7, some 3⟩)] ⟨7, some 3⟩ 3 0
      (by decide) rfl (by decide) (by decide) rfl
  · exact (h.2.2 "A" "x" 1 1 0 (by decide) (by decide) rfl).1
  · exact (h.2.2 "A" "x" 1 1 0 (by decide) (by decide) rfl).2

/-- A cache miss always invokes the underlying operation. -/
theorem cachedCall_miss_invoked {ε V : Type} (T : Int)
    (op : String → String → Outcome ε V) (method : String) (c : CCall)
    (cache : List ((String × String × String) × CEntry V))
    (h : alookup cache (c.scope, method, c.argsStr) = none) :
    (cachedCall T op method c cache).2.2 = true := by
  rcases hop : op c.scope c.argsStr with v | e | r
  · simp [cachedCall, h, hop]
  · simp [cachedCall, h, hop]
  · rcases r with v | e <;> simp [cachedCall, h, hop]

/-- A memo miss always invokes the underlying operation. -/
theorem memoizeCall_miss_invoked {ε V : Type}
    (op : String → String → Outcome ε V) (method : String) (c : CCall)
    (memo : List ((String × String) × V))
    (h : alookup memo (method, c.argsStr) = none) :
    (memoizeCall op method c memo).2.2 = true := by
  rcases hop : op c.scope c.argsStr with v | e | r
  · simp [memoizeCall, h, hop]
  · simp [memoizeCall, h, hop]
  · rcases r with v | e <;> simp [memoizeCall, h, hop]

/-- C10: if the underlying operation throws synchronously on a cache miss
(no entry, or an expired entry), no cache entry is created for that key, the
rest of the cache is unchanged, the exception propagates unchanged, and a
subsequent call with the same key invokes the operation again; likewise for
Memoize. -/
theorem cached_throw_C10 {ε V : Type} (T : Int)
    (op : String → String → Outcome ε V) (method : String) :
    (∀ (c : CCall) cache (e : ε),
      op c.scope c.argsStr = .exn e →
      (alookup cache (c.scope, method, c.argsStr) = none ∨
        (∃ (ent : CEntry V) (ev : Int),
          alookup cache (c.scope, method, c.argsStr) = some ent ∧
          ent.expiry = some ev ∧ 0 < ev ∧ ev ≤ c.now)) →
      (cachedCall T op method c cache).1 = .exn e ∧
      alookup (cachedCall T op method c cache).2.1
        (c.scope, method, c.argsStr) = none ∧
      (∀ k, k ≠ (c.scope, method, c.argsStr) →
        alookup (cachedCall T op method c cache).2.1 k = alookup cache k) ∧
      (cachedCall T op method c cache).2.2 = true ∧
      (∀ (c₂ : CCall), c₂.scope = c.scope → c₂.argsStr = c.argsStr →
        (cachedCall T op method c₂
          (cachedCall T op method c cache).2.1).2.2 = true)) ∧
    (∀ (c : CCall) memo (e : ε),
      op c.scope c.argsStr = .exn e →
      alookup memo (method, c.argsStr) = none →
      memoizeCall op method c memo = (.exn e, memo, true) ∧
      (∀ (c₂ : CCall), c₂.argsStr = c.argsStr →
        (memoizeCall op method c₂
          (memoizeCall op method c memo).2.1).2.2 = true)) := by
  constructor
  · intro c cache e hop hmiss
    rcases hmiss with h | ⟨ent, ev, hsome, hev, hpos, hle⟩
    · have hc : cachedCall T op method c cache = (.exn e, cache, true) := by
        simp [cachedCall, h, hop]
      refine ⟨by rw [hc], by rw [hc]; exact h, fun k _ => by rw [hc], by rw [hc],
        ?_⟩
      intro c₂ hsc hargs
      apply cachedCall_miss_invoked
      rw [hsc, hargs, hc]
      exact h
    · have hmiss2 : cacheHit ent.expiry c.now = false := by
        simp only [cacheHit, hev, expiryFalsy, Option.getD_some,
          Bool.or_eq_false_iff, decide_eq_false_iff_not, not_lt,
          beq_eq_false_iff_ne, ne_eq]
        constructor
        · omega
        · omega
      have hc : cachedCall T op method c cache =
          (.exn e, adel cache (c.scope, method, c.argsStr), true) := by
        simp [cachedCall, hsome, hmiss2, hop]
      refine ⟨by rw [hc], by rw [hc]; exact alookup_adel cache _, ?_, by rw [hc],
        ?_⟩
      · intro k hk
        rw [hc]
        exact alookup_adel_ne cache _ k hk
      · intro c₂ hsc hargs
        apply cachedCall_miss_invoked
        rw [hsc, hargs, hc]
        exact alookup_adel cache _
  · intro c memo e hop hmiss
    have hc : memoizeCall op method c memo = (.exn e, memo, true) := by
      simp [memoizeCall, hmiss, hop]
    refine ⟨hc, ?_⟩
    intro c₂ hargs
    apply memoizeCall_miss_invoked
    rw [hargs, hc]
    exact hmiss

/-- Witness for C10: a sync throw on a fresh key leaves the cache's other
entry alone and surfaces the exception; the memo case on an empty memo. -/
theorem cached_throw_C10_witness :
    ((cachedCall (ε := Unit) (V := Nat) 10 (fun _ _ => .exn ()) "m"
        ⟨"A", "x", 5⟩ [(("B", "m", "x"), ⟨1, none⟩)]).1 = .exn ()) ∧
    (alookup (cachedCall (ε := Unit) (V := Nat) 10 (fun _ _ => .exn ()) "m"
        ⟨"A", "x", 5⟩ [(("B", "m", "x"), ⟨1, none⟩)]).2.1
      ("A", "m", "x") = none) ∧
    (memoizeCall (ε := Unit) (V := Nat) (fun _ _ => .exn ()) "m"
        ⟨"A", "x", 5⟩ [] = (.exn (), [], true)) := by
  have h := cached_throw_C10 (ε := Unit) (V := Nat) 10 (fun _ _ => .exn ()) "m"
  have h1 := h.1 ⟨"A", "x", 5⟩ [(("B", "m", "x"), ⟨1, none⟩)] () rfl
    (Or.inl (by decide))
  have h2 := h.2 ⟨"A", "x", 5⟩ [] () rfl rfl
  exact ⟨h1.1, h1.2.1, h2.1⟩

/-- Lookup through the Memoize-to-Cached store correspondence. -/
theorem alookup_map_memo {V : Type} (s m a : String)
    (memo : List ((String × String) × V)) :
    alookup (memo.map (memoToCache s)) (s, m, a) =
      (alookup memo (m, a)).map (fun v => (⟨v, none⟩ : CEntry V)) := by
  induction memo with
  | nil => simp [alookup]
  | cons p rest ih =>
    obtain ⟨⟨m₁, a₁⟩, v₁⟩ := p
    by_cases h1 : m₁ = m
    · by_cases h2 : a₁ = a
      · subst h1
        subst h2
        simp [memoToCache, alookup]
      · simp [memoToCache, alookup, Prod.mk.injEq, h1, h2, ih]
    · simp [memoToCache, alookup, Prod.mk.injEq, h1, ih]

/-- Insertion through the Memoize-to-Cached store correspondence. -/
theorem aset_map_memo {V : Type} (s m a : String) (v : V)
    (memo : List ((String × String) × V)) :
    aset (memo.map (memoToCache s)) (s, m, a) ⟨v, none⟩ =
      (aset memo (m, a) v).map (memoToCache s) := by
  induction memo with
  | nil => simp [aset, memoToCache]
  | cons p rest ih =>
    obtain ⟨⟨m₁, a₁⟩, v₁⟩ := p
    by_cases h1 : m₁ = m
    · by_cases h2 : a₁ = a
      · subst h1
        subst h2
        simp [aset, memoToCache]
      · simp [aset, memoToCache, Prod.mk.injEq, h1, h2, ih]
    · simp [aset, memoToCache, Prod.mk.injEq, h1, ih]

/-- Core of the Memoize-Cached comparison: from corresponding stores, runs
over calls sharing one scope produce identical outcomes and invoked flags. -/
theorem cachedRun_eq_memoizeRun {ε V : Type}
    (op : String → String → Outcome ε V) (method s : String) :
    ∀ (calls : List CCall) (memo : List ((String × String) × V)),
      (∀ c ∈ calls, c.scope = s) →
      (cachedRun 0 op method calls (memo.map (memoToCache s))).1 =
        (memoizeRun op method calls memo).1 := by
  intro calls
  induction calls with
  | nil =>
    intro memo _
    simp [cachedRun, memoizeRun]
  | cons c rest ih =>
    intro memo hs
    have hcs : c.scope = s := hs c (List.mem_cons_self c rest)
    have hrest : ∀ c' ∈ rest, c'.scope = s :=
      fun c' h' => hs c' (List.mem_cons_of_mem _ h')
    have hclook : alookup (memo.map (memoToCache s))
        (c.scope, method, c.argsStr) =
        (alookup memo (method, c.argsStr)).map
          (fun v => (⟨v, none⟩ : CEntry V)) := by
      rw [hcs]
      exact alookup_map_memo s method c.argsStr memo
    rcases hm : alookup memo (method, c.argsStr) with _ | v
    · have hcl : alookup (memo.map (memoToCache s))
          (c.scope, method, c.argsStr) = none := by
        rw [hclook, hm]
        rfl
      have hset : ∀ w : V, aset (memo.map (memoToCache s))
          (c.scope, method, c.argsStr) ⟨w, none⟩ =
          (aset memo (method, c.argsStr) w).map (memoToCache s) := by
        intro w
        rw [hcs]
        exact aset_map_memo s method c.argsStr w memo
      have h00 : (if ((0 : Int) == 0) = true then (none : Option Int)
          else some (c.now + 0)) = none := rfl
      rcases hop : op c.scope c.argsStr with w | e | r
      · simp only [cachedRun, memoizeRun, cachedCall, memoizeCall, hcl, hm, hop]
        simp only [h00, hset]
        simp only [List.cons.injEq, true_and]
        exact ih (aset memo (method, c.argsStr) w) hrest
      · simp only [cachedRun, memoizeRun, cachedCall, memoizeCall, hcl, hm, hop]
        simp only [List.cons.injEq, true_and]
        exact ih memo hrest
      · rcases r with e | w
        · simp only [cachedRun, memoizeRun, cachedCall, memoizeCall, hcl, hm, hop]
          simp only [List.cons.injEq, true_and]
          exact ih memo hrest
        · simp only [cachedRun, memoizeRun, cachedCall, memoizeCall, hcl, hm, hop]
          simp only [h00, hset]
          simp only [List.cons.injEq, true_and]
          exact ih (aset memo (method, c.argsStr) w) hrest
    · have hcl : alookup (memo.map (memoToCache s))
          (c.scope, method, c.argsStr) = some ⟨v, none⟩ := by
        rw [hclook, hm]
        rfl
      have hhit : cacheHit (none : Option Int) c.now = true := by
        simp [cacheHit, expiryFalsy]
      simp only [cachedRun, memoizeRun, cachedCall, memoizeCall, hcl, hm, hhit,
        if_true]
      simp only [List.cons.injEq, true_and]
      exact ih memo hrest

/-- Counterexample to C6 as stated: the same method definition invoked
through instances of two different classes.  Cached's default key includes
the class name, so the second scope recomputes and observes its own value;
Memoize's key omits it, so the second scope is served the first scope's
cached value without invoking the operation. -/
theorem memoize_cached_C6_cex :
    (cachedRun (ε := Unit) 0 (fun sc _ => .imm sc) "m"
        [⟨"A", "x", 0⟩, ⟨"B", "x", 1⟩] []).1 =
      [(.imm "A", true), (.imm "B", true)] ∧
    (memoizeRun (ε := Unit) (fun sc _ => .imm sc) "m"
        [⟨"A", "x", 0⟩, ⟨"B", "x", 1⟩] []).1 =
      [(.imm "A", true), (.imm "A", false)] := by
  constructor
  · rfl
  · rfl

/-- C6 (amended): for calls all made through instances of a single scope, a
Memoize-wrapped method is observably equivalent to the same method wrapped
with Cached with no expiryTime and the invalidation surface unused: same
outcomes and the underlying operation invoked on exactly the same calls.
(Across distinct scopes they differ, since Memoize's key omits the scope.) -/
theorem memoize_cached_equiv_C6 {ε V : Type}
    (op : String → String → Outcome ε V) (method s : String)
    (calls : List CCall) (hs : ∀ c ∈ calls, c.scope = s) :
    (cachedRun 0 op method calls []).1 = (memoizeRun op method calls []).1 := by
  have h := cachedRun_eq_memoizeRun op method s calls [] hs
  simpa using h

/-- Witness for C6: two same-scope calls agree between Cached and Memoize. -/
theorem memoize_cached_equiv_C6_witness :
    (cachedRun (ε := Unit) 0 (fun sc _ => .imm sc) "m"
        [⟨"A", "x", 0⟩, ⟨"A", "x", 5⟩] []).1 =
      (memoizeRun (ε := Unit) (fun sc _ => .imm sc) "m"
        [⟨"A", "x", 0⟩, ⟨"A", "x", 5⟩] []).1 :=
  memoize_cached_equiv_C6 (fun sc _ => .imm sc) "m" "A"
    [⟨"A", "x", 0⟩, ⟨"A", "x", 5⟩] (by decide)

/-- Counterexample to C5 as stated: two calls 5 apart under delay 10.  The
operation runs once with the last call's arguments (this part of the claim
holds), but the superseded first caller's returned pending value never
settles (its stored timeout was cleared before firing), while the claim says
every superseded caller's pending value resolves to the result. -/
theorem debounce_C5_cex :
    (debounceRun (B := Nat) 10 Nat.succ [(0, 1), (5, 2)]).1 = [2] ∧
    (debounceRun (B := Nat) 10 Nat.succ [(0, 1), (5, 2)]).2 = [none, some 3] :=
  ⟨rfl, rfl⟩

/-- C5 (amended): when several calls on one key each arrive strictly within
delay of the previous one, the underlying operation executes exactly once,
with the last call's arguments; the last caller's pending value resolves to
that result, and every superseded caller's pending value never settles. -/
theorem debounce_collapse_C5 {A B : Type} (delay : Int) (op : A → B) :
    ∀ (c : Int × A) (rest : List (Int × A)),
      List.Chain' (fun p q : Int × A => q.1 < p.1 + delay) (c :: rest) →
      (debounceGo delay op c rest).1 = [(rest.getLastD c).2] ∧
      (debounceGo delay op c rest).2 =
        List.replicate rest.length none ++ [some (op (rest.getLastD c).2)] := by
  intro c rest
  induction rest generalizing c with
  | nil =>
    intro _
    obtain ⟨t, a⟩ := c
    simp [debounceGo]
  | cons c₂ rest ih =>
    intro hch
    obtain ⟨t, a⟩ := c
    obtain ⟨t₂, a₂⟩ := c₂
    rw [List.chain'_cons] at hch
    obtain ⟨hlt, hch₂⟩ := hch
    have hcond : ¬ (t + delay ≤ t₂) := by
      simp only at hlt
      omega
    obtain ⟨ih1, ih2⟩ := ih (t₂, a₂) hch₂
    have hlast : ((t₂, a₂) :: rest).getLastD (t, a) = rest.getLastD (t₂, a₂) :=
      List.getLastD_cons _ _ _
    constructor
    · simp only [debounceGo, if_neg hcond]
      rw [ih1, hlast]
    · simp only [debounceGo, if_neg hcond]
      rw [ih2, hlast]
      simp [List.replicate_succ]

/-- Witness for C5: three calls within delay 10 collapse to one execution
with the last arguments; the two superseded promises never settle. -/
theorem debounce_collapse_C5_witness :
    (debounceGo (B := Nat) 10 Nat.succ (0, 1) [(5, 2), (9, 3)]).1 = [3] ∧
    (debounceGo (B := Nat) 10 Nat.succ (0, 1) [(5, 2), (9, 3)]).2 =
      [none, none, some 4] := by
  have hch : List.Chain' (fun p q : Int × Nat => q.1 < p.1 + 10)
      [(0, 1), (5, 2), (9, 3)] := by
    refine List.chain'_cons.mpr ⟨by norm_num, ?_⟩
    refine List.chain'_cons.mpr ⟨by norm_num, ?_⟩
    exact List.chain'_singleton _
  have h := debounce_collapse_C5 10 Nat.succ (0, 1) [(5, 2), (9, 3)] hch
  exact ⟨h.1, h.2⟩

/-- Counterexample to C3 as stated: a Timeout-wrapped operation that returns
an immediate value hands the caller a pending value (the race promise), so
wrapping does not preserve the sync-in, sync-out contract. -/
theorem contract_C3_cex :
    (timeoutValue (ε := Unit) (.imm (0 : Nat)) false).isPending = true ∧
    (Outcome.imm (ε := Unit) (0 : Nat)).isPending = false :=
  ⟨rfl, rfl⟩

/-- C3 (amended): Retry, CircuitBreaker, Timeout (apart from a synchronous
throw, which escapes Timeout unchanged), and both debounce variants always
hand the caller a pending value, even for an operation returning an
immediate value; Fallback, an allowed RateLimited call, and the lifecycle
hooks with synchronously returning hook functions pass the operation's
outcome (and so its shape) through; a Cached or Memoize hit returns an
immediate value even when the operation is asynchronous, while a miss passes
the operation's outcome through; an executed ThrottleSync call keeps the
operation's shape and a gated one returns an immediate undefined. -/
theorem contract_shapes_C3 {ε α β V : Type} (T : Int) (limit : Nat)
    (window interval : Int) (op : String → String → Outcome ε V)
    (method scope : String) :
    (∀ (rop : Nat → Except ε α) (N : Nat) (strat : Bool) (B : Nat),
      (retryValue rop N strat B).isPending = true) ∧
    (∀ (F : Nat) (R : Int) (s : CBState) (now : Int) (r : Except ε α),
      (cbValue F R s now r).isPending = true) ∧
    (∀ (v : α) (w : Bool), (timeoutValue (ε := ε) (.imm v) w).isPending = true) ∧
    (∀ (r : Except ε α) (w : Bool), (timeoutValue (.pend r) w).isPending = true) ∧
    (∀ (e : ε) (w : Bool), timeoutValue (α := α) (.exn e) w = .exn (.under e)) ∧
    (∀ (v : α) (fb : Outcome ε α), fallbackValue (.imm v) fb = .imm v) ∧
    (∀ (r : Except ε α) (fb : Outcome ε α),
      (fallbackValue (.pend r) fb).isPending = true) ∧
    (∀ (o : Outcome ε α) (now : Int) (st : List ((String × String) × List Int)),
      ¬ limit ≤ (((alookup st (scope, method)).getD []).filter
        (fun x => now - window < x)).length →
      (rateLimitedCall limit window o scope method now st).1 =
        o.mapErr .under) ∧
    (∀ (o : Outcome ε α),
      (Outcome.mapErr (RLErr.under) o).isPending = o.isPending) ∧
    (∀ (c : CCall) cache (ent : CEntry V),
      alookup cache (c.scope, method, c.argsStr) = some ent →
      cacheHit ent.expiry c.now = true →
      (cachedCall T op method c cache).1 = .imm ent.value) ∧
    (∀ (c : CCall) cache,
      alookup cache (c.scope, method, c.argsStr) = none →
      (cachedCall T op method c cache).1 = op c.scope c.argsStr) ∧
    (∀ (c : CCall) (memo : List ((String × String) × V)) (v : V),
      alookup memo (method, c.argsStr) = some v →
      (memoizeCall op method c memo).1 = .imm v) ∧
    (∀ (c : CCall) (memo : List ((String × String) × V)),
      alookup memo (method, c.argsStr) = none →
      (memoizeCall op method c memo).1 = op c.scope c.argsStr) ∧
    (∀ (o : Outcome ε α) (now : Int) (st : List ((String × String) × Int)),
      interval ≤ now - (alookup st (scope, method)).getD 0 →
      (throttleSyncCall interval o scope method now st).1 = o.mapVal some) ∧
    (∀ (o : Outcome ε α) (now : Int) (st : List ((String × String) × Int)),
      ¬ interval ≤ now - (alookup st (scope, method)).getD 0 →
      (throttleSyncCall interval o scope method now st).1 = .imm none) ∧
    (∀ (o : Outcome ε α),
      (o.mapVal (some : α → Option α)).isPending = o.isPending) ∧
    (∀ (b : β) (o : Outcome ε α), effectBeforeValue (.imm b) o = o) ∧
    (∀ (b : β) (o : Outcome ε α), effectAfterValue (.imm b) o = o) ∧
    (∀ (b : β) (o : Outcome ε α), effectErrorValue (.imm b) o = o) ∧
    (∀ (delay : Int) (dop : α → β) (calls : List (Int × α)) (i : Nat),
      (debounceValueAt delay dop calls i).isPending = true) := by
  refine ⟨?_, ?_, ?_, ?_, ?_, ?_, ?_, ?_, ?_, ?_, ?_, ?_, ?_, ?_, ?_, ?_, ?_,
    ?_, ?_, ?_⟩
  · intro rop N strat B
    rfl
  · intro F R s now r
    rfl
  · intro v w
    rfl
  · intro r w
    rfl
  · intro e w
    rfl
  · intro v fb
    rfl
  · intro r fb
    rcases r with e | v
    · rcases fb with v | e₂ | r₂ <;> rfl
    · rfl
  · intro o now st h
    simp [rateLimitedCall, if_neg h]
  · intro o
    rcases o with v | e | r
    · rfl
    · rfl
    · rcases r with e | v <;> rfl
  · intro c cache ent h1 h2
    simp [cachedCall, h1, h2]
  · intro c cache h
    rcases hop : op c.scope c.argsStr with v | e | r
    · simp [cachedCall, h, hop]
    · simp [cachedCall, h, hop]
    · rcases r with e | v <;> simp [cachedCall, h, hop]
  · intro c memo v h
    simp [memoizeCall, h]
  · intro c memo h
    rcases hop : op c.scope c.argsStr with v | e | r
    · simp [memoizeCall, h, hop]
    · simp [memoizeCall, h, hop]
    · rcases r with e | v <;> simp [memoizeCall, h, hop]
  · intro o now st h
    simp [throttleSyncCall, if_pos h]
  · intro o now st h
    simp [throttleSyncCall, if_neg h]
  · intro o
    rcases o with v | e | r
    · rfl
    · rfl
    · rcases r with e | v <;> rfl
  · intro b o
    rfl
  · intro b o
    rcases o with v | e | r
    · rfl
    · rfl
    · rcases r with e | v <;> rfl
  · intro b o
    rcases o with v | e | r
    · rfl
    · rfl
    · rcases r with e | v <;> rfl
  · intro delay dop calls i
    rfl

/-- Witness for C3 at concrete inputs: the hypothesis-bearing conjuncts
instantiated (allowed rate-limited call, cache hit and miss, memo hit and
miss, executed and gated throttle). -/
theorem contract_shapes_C3_witness :
    ((rateLimitedCall (ε := Unit) (α := Unit) 1 10 (.imm ()) "A" "m" 100
        []).1 = Outcome.mapErr RLErr.under (.imm ())) ∧
    ((cachedCall (ε := Unit) 7 (fun _ _ => .pend (.ok (0 : Nat))) "m"
        ⟨"A", "x", 5⟩ [(("A", "m", "x"), ⟨9, none⟩)]).1 = .imm 9) ∧
    ((cachedCall (ε := Unit) 7 (fun _ _ => .pend (.ok (0 : Nat))) "m"
        ⟨"A", "x", 5⟩ []).1 = .pend (.ok 0)) ∧
    ((memoizeCall (ε := Unit) (fun _ _ => .pend (.ok (0 : Nat))) "m"
        ⟨"A", "x", 5⟩ [(("m", "x"), 9)]).1 = .imm 9) ∧
    ((memoizeCall (ε := Unit) (fun _ _ => .pend (.ok (0 : Nat))) "m"
        ⟨"A", "x", 5⟩ []).1 = .pend (.ok 0)) ∧
    ((throttleSyncCall (ε := Unit) 10 (.imm (0 : Nat)) "A" "m" 100 []).1 =
      Outcome.mapVal some (.imm 0)) ∧
    ((throttleSyncCall (ε := Unit) 10 (.imm (0 : Nat)) "A" "m" 100
        [(("A", "m"), 95)]).1 = .imm none) := by
  have h := contract_shapes_C3 (ε := Unit) (α := Nat) (β := Unit) (V := Nat)
    7 1 10 10 (fun _ _ => .pend (.ok (0 : Nat))) "m" "A"
  refine ⟨?_, ?_, ?_, ?_, ?_, ?_, ?_⟩
  · exact (contract_shapes_C3 (ε := Unit) (α := Unit) (β := Unit) (V := Unit)
      7 1 10 10 (fun _ _ => .imm ()) "m" "A").2.2.2.2.2.2.2.1 (.imm ()) 100 []
      (by decide)
  · exact h.2.2.2.2.2.2.2.2.2.1 ⟨"A", "x", 5⟩ [(("A", "m", "x"), ⟨9, none⟩)]
      ⟨9, none⟩ (by decide) rfl
  · exact h.2.2.2.2.2.2.2.2.2.2.1 ⟨"A", "x", 5⟩ [] rfl
  · exact h.2.2.2.2.2.2.2.2.2.2.2.1 ⟨"A", "x", 5⟩ [(("m", "x"), 9)] 9 (by decide)
  · exact h.2.2.2.2.2.2.2.2.2.2.2.2.1 ⟨"A", "x", 5⟩ [] rfl
  · exact h.2.2.2.2.2.2.2.2.2.2.2.2.2.1 (.imm 0) 100 [] (by decide)
  · exact h.2.2.2.2.2.2.2.2.2.2.2.2.2.2.1 (.imm 0) 100 [(("A", "m"), 95)]
      (by decide)

end Bling
